import Mathlib

/-!
Verification of the Hashi accent-resolution backend.

The definitions below embed the pitch-accent pipeline of
`packages/backend/main.py` (the `analyze` endpoint) and the candidate-store
build pipeline of `packages/backend/scripts/build_db.py`.

Conventions, taken from the code: pitch labels are the integers used by the
program, 1 for LOW (the character L) and 2 for HIGH (the character H); a
pattern is a `List ℕ`.  Collaborator outputs (the neural model, the UniDic
parse, the Sudachi tokenization, the converter of build_db.py) are passed in
as parameters; a `none` parameter stands for a raised exception where the
Python wraps the call in try/except.
-/

/-- Embeds `main.py` lines 159-165 (dictionary-kernel path):
after `preds` is computed, `morae = sep_katakana2mora(yomi)` and then
`if len(preds) > len(morae): preds = preds[:len(morae)]
elif len(preds) < len(morae): preds += [1] * (len(morae) - len(preds))`.
`target` is `len(morae)`. -/
def normalizePreds (preds : List ℕ) (target : ℕ) : List ℕ :=
  if preds.length > target then preds.take target
  else if preds.length < target then preds ++ List.replicate (target - preds.length) 1
  else preds

/-- Embeds `main.py` lines 195-197 (neural fallback path):
`preds = a_est[0].tolist()` followed by `preds = preds[:len(yomi)]`.
The model output is consumed as-is; `len(yomi)` counts characters of the
reading string, not morae. -/
def analyzeFallback (modelOut : List ℕ) (yomi : String) : List ℕ :=
  modelOut.take yomi.length

/-- Neural transition codes with their numeric encoding FALL=0, CONTINUE=1,
RISE=2 (spec section 6). -/
inductive NeuralCode
  | fall
  | cont
  | rise
deriving DecidableEq

/-- Numeric encoding of a transition code (spec section 6). -/
def codeNum : NeuralCode → ℕ
  | NeuralCode.fall => 0
  | NeuralCode.cont => 1
  | NeuralCode.rise => 2

/-- Modelled from the spec: the running-level update of the section 4.3
state machine.  Emits the current level, then FALL sets it to LOW (1),
RISE to HIGH (2), CONTINUE keeps it.  This definition follows the spec's
words and exists only to compare the specified decoder with what the code
actually does; no such state machine appears in the source. -/
def decodeAux : ℕ → List NeuralCode → List ℕ
  | _, [] => []
  | lvl, c :: rest =>
    lvl :: decodeAux (match c with
      | NeuralCode.fall => 1
      | NeuralCode.rise => 2
      | NeuralCode.cont => lvl) rest

/-- Modelled from the spec: the section 4.3 decoder, with `current_level`
initialized to HIGH (2) when the first code is FALL and LOW (1) otherwise. -/
def decodeCodes (codes : List NeuralCode) : List ℕ :=
  match codes with
  | [] => []
  | c :: _ => decodeAux (if c = NeuralCode.fall then 2 else 1) codes

/-- Modelled from the spec: the static table of small combining katakana of
section 4.1 (small vowels, glides, the geminate marker); the table itself is
not in src/ (it lives in the external tdmelodic package). -/
def smallKana : List Char := ['ァ', 'ィ', 'ゥ', 'ェ', 'ォ', 'ャ', 'ュ', 'ョ', 'ヮ', 'ッ']

/-- Modelled from the spec: the left-to-right scan of section 4.1 — a small
character combines with the preceding character into one two-character mora,
every other character forms a one-character mora. -/
def sepMora : List Char → List String
  | [] => []
  | [c] => [String.mk [c]]
  | c1 :: c2 :: rest =>
    if c2 ∈ smallKana then String.mk [c1, c2] :: sepMora rest
    else String.mk [c1] :: sepMora (c2 :: rest)

/-- Modelled from the spec: `sep_katakana2mora` (imported by `main.py` from
tdmelodic, source not under src/), as specified in section 4.1. -/
def sep_katakana2mora (s : String) : List String := sepMora s.data

/-- One morpheme of the best UniDic parse, reduced to the only field
`main.py` consults on this path: the raw accent string `acc`
(`mecab_parsed[0].get('acc')`). -/
structure Morpheme where
  acc : Option String
deriving DecidableEq

/-- Python truthiness of a string: nonempty. -/
def pyTruthyStr (s : String) : Bool := s != ""

/-- Python `str.isdigit`: true iff the string is nonempty and every
character is a digit. -/
def pyIsdigit (s : String) : Bool := s.data != [] && s.data.all Char.isDigit

/-- Embeds `main.py` lines 128-132: `acc_kernel_str = mecab_parsed[0].get('acc')`
and the branch `if acc_kernel_str and acc_kernel_str.isdigit():` that selects
the dictionary-kernel path (true) over the neural fallback (false).
The code indexes `mecab_parsed[0]`; an empty parse list (which would raise
in Python before the branch) is mapped to false here and is not used by any
theorem below. -/
def usesKernelPath (parsed : List Morpheme) : Bool :=
  match parsed.head? with
  | none => false
  | some m =>
    match m.acc with
    | none => false
    | some s => pyTruthyStr s && pyIsdigit s

/-- Embeds the bracket prefixed to mora `i` by the renderer loop of
`main.py` lines 242-257: a `[` exactly when the label is HIGH (2), the
position is not 0 and the previous label is LOW (1). -/
def vizPre (preds : List ℕ) (i : ℕ) : String :=
  if preds.getD i 0 = 2 then
    if i = 0 then ""
    else if preds.getD (i - 1) 0 = 1 then "[" else ""
  else ""

/-- Embeds the bracket suffixed to mora `i` by the renderer loop of
`main.py` lines 259-270: a `]` exactly when the label is HIGH (2), a next
label exists (`i + 1 < len(preds)`) and that next label is LOW (1). -/
def vizSuf (preds : List ℕ) (i : ℕ) : String :=
  if preds.getD i 0 = 2 then
    if i + 1 < preds.length then
      if preds.getD (i + 1) 0 = 1 then "]" else ""
    else ""
  else ""

/-- Embeds the whole display loop of `main.py` lines 241-274:
`for i, (m, p) in enumerate(zip(morae, preds)): display_str += prefix + m + suffix`.
`zip` stops at the shorter of the two lists. -/
def displayStr (morae : List String) (preds : List ℕ) : String :=
  String.join ((List.range (min morae.length preds.length)).map
    (fun i => vizPre preds i ++ morae.getD i ("") ++ vizSuf preds i))

/-- One row of the `candidates` table of `build_db.py` (`setup_db`):
(text UNIQUE, reading, accent_pattern, mora_count).  The Python serializes
the pattern with `str(pattern)`; the serialization is kept as the list
itself here. -/
structure CandidateRecord where
  text : String
  reading : String
  accent_pattern : List ℕ
  mora_count : ℕ
deriving DecidableEq

/-- Embeds the store insertion of `build_db.py`: `INSERT OR IGNORE INTO
candidates ...` against the `text TEXT UNIQUE` column of `setup_db` — a row
whose text is already present is silently left alone, otherwise the row is
appended. -/
def putCandidate (db : List CandidateRecord) (r : CandidateRecord) : List CandidateRecord :=
  if db.any (fun x => x.text == r.text) then db else db ++ [r]

/-- Embeds `build_db.py` `align_and_validate` (lines 41-64).  `res` is the
outcome of `converter.convert(text)` reduced to the two fields read here
(`reading`, `accent_pattern`); the converter itself (`CustomConverter`,
imported from main but absent from src/) is kept abstract, and `none`
models a raised exception swallowed by the `except` clause.  The checks are
the code's: empty reading rejected, then `mora_count = len(pattern)` with
`mora_count < 2 or mora_count > 10` rejected. -/
def align_and_validate (res : Option (String × List ℕ)) (text : String) :
    Option CandidateRecord :=
  match res with
  | none => none
  | some (reading, pat) =>
    if reading = "" then none
    else if pat.length < 2 ∨ 10 < pat.length then none
    else some ⟨text, reading, pat, pat.length⟩

/-- One Sudachi token reduced to its part-of-speech list. -/
structure SudachiToken where
  pos : List String
deriving DecidableEq

/-- Embeds `build_db.py` `is_noun_via_sudachi` (lines 67-85): false unless
the tokenization has exactly one token (`len(tokens) != 1` rejected, written
here as the single-element pattern) whose first part-of-speech entry is
the noun category; an empty part-of-speech list and a thrown exception
(`tokens = none`) both yield false. -/
def is_noun_via_sudachi (tokens : Option (List SudachiToken)) : Bool :=
  match tokens with
  | some [t] =>
    match t.pos with
    | [] => false
    | p0 :: _ => p0 == "名詞"
  | _ => false

/-- Embeds one iteration of the build loop of `build_db.py` `main`
(lines 151-180): skip unless `is_noun_via_sudachi`, skip unless
`align_and_validate` returns data, else insert with INSERT OR IGNORE. -/
def processWord (tokens : Option (List SudachiToken)) (conv : Option (String × List ℕ))
    (db : List CandidateRecord) (text : String) : List CandidateRecord :=
  if is_noun_via_sudachi tokens = false then db
  else
    match align_and_validate conv text with
    | none => db
    | some data => putCandidate db data

/-! ## Helper lemmas -/

theorem getD_take_of_lt {α : Type} (l : List α) (d : α) :
    ∀ n i, i < n → (l.take n).getD i d = l.getD i d := by
  induction l with
  | nil => intro n i _; simp
  | cons a t ih =>
    intro n i h
    cases n with
    | zero => omega
    | succ n =>
      cases i with
      | zero => simp
      | succ i =>
        simp only [List.take_succ_cons, List.getD_cons_succ]
        exact ih n i (by omega)

theorem getD_append_left_of_lt {α : Type} (l l2 : List α) (d : α) :
    ∀ i, i < l.length → (l ++ l2).getD i d = l.getD i d := by
  induction l with
  | nil => intro i h; simp at h
  | cons a t ih =>
    intro i h
    cases i with
    | zero => simp
    | succ i =>
      simp only [List.cons_append, List.getD_cons_succ]
      exact ih i (by simp at h; omega)

theorem getD_replicate_of_lt {α : Type} (x d : α) :
    ∀ k i, i < k → (List.replicate k x).getD i d = x := by
  intro k
  induction k with
  | zero => intro i h; omega
  | succ k ih =>
    intro i h
    cases i with
    | zero => simp [List.replicate]
    | succ i =>
      simp only [List.replicate, List.getD_cons_succ]
      exact ih i (by omega)

theorem getD_append_right_replicate {α : Type} (l : List α) (x d : α) (k : ℕ) :
    ∀ i, l.length ≤ i → i < l.length + k → (l ++ List.replicate k x).getD i d = x := by
  induction l with
  | nil =>
    intro i h1 h2
    simp only [List.nil_append, List.length_nil, Nat.zero_add] at *
    exact getD_replicate_of_lt x d k i h2
  | cons a t ih =>
    intro i h1 h2
    simp only [List.length_cons] at h1 h2
    cases i with
    | zero => omega
    | succ i =>
      simp only [List.cons_append, List.getD_cons_succ]
      exact ih i (by omega) (by omega)

theorem normalizePreds_length (preds : List ℕ) (target : ℕ) :
    (normalizePreds preds target).length = target := by
  unfold normalizePreds
  split
  · simp [List.length_take]
    omega
  · split
    · simp
      omega
    · omega

/-! ## Claims about the fallback path and normalization -/

/-- C1 counterexample: feeding the numeric codes of [FALL, CONTINUE, RISE]
to the fallback path of the code yields the raw codes [0, 1, 2], while the
spec's transition state machine decodes them to [HIGH, LOW, LOW] = [2, 1, 1];
the two disagree, so the fallback pattern is not produced by the state
machine. -/
theorem fallback_differs_from_decode :
    analyzeFallback ([NeuralCode.fall, NeuralCode.cont, NeuralCode.rise].map codeNum)
      ("アアア") = [0, 1, 2] ∧
    decodeCodes [NeuralCode.fall, NeuralCode.cont, NeuralCode.rise] = [2, 1, 1] ∧
    ([0, 1, 2] : List ℕ) ≠ [2, 1, 1] := by
  refine ⟨rfl, rfl, by decide⟩

/-- C1 (amended): on the fallback path the returned pattern is the model's
raw numeric output passed through unchanged, truncated to the character
length of the reading — its length is min(output length, reading length)
and each entry equals the corresponding raw output value; no transition
state machine is applied. -/
theorem analyzeFallback_raw (out : List ℕ) (yomi : String) :
    (analyzeFallback out yomi).length = min out.length yomi.length ∧
    ∀ i, i < (analyzeFallback out yomi).length →
      (analyzeFallback out yomi).getD i 0 = out.getD i 0 := by
  constructor
  · simp [analyzeFallback, Nat.min_comm]
  · intro i hi
    have hy : i < yomi.length := by
      simp only [analyzeFallback, List.length_take] at hi
      omega
    exact getD_take_of_lt out 0 yomi.length i hy

/-- C1 witness: the amended statement evaluated at the model output [5, 7]
and the three-character reading. -/
theorem analyzeFallback_raw_instance :
    (analyzeFallback [5, 7] ("アアア")).length = min 2 3 ∧
    (analyzeFallback [5, 7] ("アアア")).getD 0 0 = 5 := by
  have h := analyzeFallback_raw [5, 7] ("アアア")
  exact ⟨h.1, h.2 0 (by decide)⟩

/-- C2 counterexample: the code normalizes [HIGH, HIGH] = [2, 2] to target
length 4 as [2, 2, 1, 1] (padding with LOW), not as [2, 2, 2, 2] (repeating
the last label) as the claim states. -/
theorem normalizePreds_pads_low_example :
    normalizePreds [2, 2] 4 = [2, 2, 1, 1] ∧
    normalizePreds [2, 2] 4 ≠ [2, 2, 2, 2] := by decide

/-- C2 (amended): normalization leaves a pattern of the target length
unchanged, truncates a longer pattern by dropping trailing elements only,
and right-pads a shorter pattern with LOW (1) regardless of the pattern's
last label; the result always has the target length. -/
theorem normalizePreds_spec (preds : List ℕ) (target : ℕ) :
    (normalizePreds preds target).length = target ∧
    (preds.length = target → normalizePreds preds target = preds) ∧
    (∀ i, i < target → i < preds.length →
      (normalizePreds preds target).getD i 0 = preds.getD i 0) ∧
    (∀ i, preds.length ≤ i → i < target →
      (normalizePreds preds target).getD i 0 = 1) := by
  refine ⟨normalizePreds_length preds target, ?_, ?_, ?_⟩
  · intro h
    unfold normalizePreds
    rw [if_neg (by omega), if_neg (by omega)]
  · intro i h1 h2
    unfold normalizePreds
    by_cases hgt : preds.length > target
    · rw [if_pos hgt]
      exact getD_take_of_lt preds 0 target i h1
    · rw [if_neg hgt]
      by_cases hlt : preds.length < target
      · rw [if_pos hlt]
        exact getD_append_left_of_lt preds (List.replicate (target - preds.length) 1) 0 i h2
      · rw [if_neg hlt]
  · intro i h1 h2
    have hlt : preds.length < target := by omega
    unfold normalizePreds
    rw [if_neg (by omega), if_pos hlt]
    exact getD_append_right_replicate preds 1 0 (target - preds.length) i h1 (by omega)

/-- C2 witness: the amended statement evaluated at the pattern [2, 2] and
target length 4. -/
theorem normalizePreds_spec_instance :
    (normalizePreds [2, 2] 4).length = 4 ∧
    (normalizePreds [2, 2] 4).getD 1 0 = 2 ∧
    (normalizePreds [2, 2] 4).getD 3 0 = 1 := by
  have h := normalizePreds_spec [2, 2] 4
  exact ⟨h.1, h.2.2.1 1 (by decide) (by decide), h.2.2.2 3 (by decide) (by decide)⟩

/-- C3 counterexample: on the fallback path, the reading of two characters
and two morae with a one-element model output yields a returned pattern of
length 1, not the mora count 2 — the mismatch is not repaired there. -/
theorem fallback_length_mismatch_example :
    (sep_katakana2mora ("アア")).length = 2 ∧
    analyzeFallback [2] ("アア") = [2] ∧
    (analyzeFallback [2] ("アア")).length ≠ (sep_katakana2mora ("アア")).length := by
  refine ⟨rfl, rfl, by decide⟩

/-- C3 (amended): on the dictionary-kernel path the returned pattern length
always equals the mora count of the reading (mismatches are repaired by the
trim/pad step), but on the neural fallback path the returned pattern length
equals min(model output length, character count of the reading), which can
differ from the mora count. -/
theorem pattern_length_by_path (preds out : List ℕ) (yomi : String) :
    (normalizePreds preds (sep_katakana2mora yomi).length).length =
      (sep_katakana2mora yomi).length ∧
    (analyzeFallback out yomi).length = min out.length yomi.length := by
  refine ⟨normalizePreds_length preds (sep_katakana2mora yomi).length, ?_⟩
  simp [analyzeFallback, Nat.min_comm]

/-! ## Claims about the path-selection policy -/

/-- C4 counterexample: a best parse of two morphemes whose first morpheme
carries the digit accent field 1 still takes the dictionary-kernel path —
a multi-token analysis is not routed to the neural fallback. -/
theorem kernel_path_multi_token_example :
    ([(⟨some ("1")⟩ : Morpheme), ⟨some ("2")⟩] : List Morpheme).length = 2 ∧
    usesKernelPath [(⟨some ("1")⟩ : Morpheme), ⟨some ("2")⟩] = true := by decide

/-- C4 (amended): the dictionary-kernel path is selected exactly when the
first morpheme of the best parse carries a nonempty all-digit accent field;
the number of tokens in the analysis is never consulted, so multi-token
(compound) analyses take the kernel path whenever their first morpheme has
such a field. -/
theorem usesKernelPath_depends_only_on_head (m : Morpheme) (rest : List Morpheme) :
    usesKernelPath (m :: rest) = usesKernelPath [m] ∧
    (usesKernelPath (m :: rest) = true ↔
      ∃ s, m.acc = some s ∧ s.data ≠ [] ∧ s.data.all Char.isDigit = true) := by
  constructor
  · rfl
  · show (match m.acc with
      | none => false
      | some s => pyTruthyStr s && pyIsdigit s) = true ↔ _
    cases h : m.acc with
    | none => simp
    | some s =>
      simp only [Option.some.injEq, Bool.and_eq_true]
      constructor
      · rintro ⟨h1, h2⟩
        refine ⟨s, rfl, ?_, ?_⟩
        · simp only [pyIsdigit, Bool.and_eq_true, bne_iff_ne, ne_eq] at h2
          exact h2.1
        · simp only [pyIsdigit, Bool.and_eq_true] at h2
          exact h2.2
      · rintro ⟨s2, hs, hd, hall⟩
        cases hs
        constructor
        · simp only [pyTruthyStr, bne_iff_ne, ne_eq]
          intro he
          exact hd (by rw [he])
        · simp only [pyIsdigit, Bool.and_eq_true, bne_iff_ne, ne_eq]
          exact ⟨hd, hall⟩

/-- C4 witness: the amended statement evaluated at a concrete two-morpheme
parse whose first morpheme carries the accent field 1. -/
theorem usesKernelPath_head_instance :
    usesKernelPath [(⟨some ("1")⟩ : Morpheme), ⟨some ("2")⟩] =
      usesKernelPath [(⟨some ("1")⟩ : Morpheme)] :=
  (usesKernelPath_depends_only_on_head ⟨some ("1")⟩ [⟨some ("2")⟩]).1

/-- C5 counterexample: a single-morpheme parse whose raw accent field is the
comma-separated candidate list 1,2 does not take the dictionary-kernel path:
the isdigit gate fails on the comma, so the word routes to the neural
fallback instead of selecting the first candidate. -/
theorem comma_acc_not_kernel_example :
    usesKernelPath [(⟨some ("1,2")⟩ : Morpheme)] = false := by decide

/-- C5 (amended): whenever the raw accent field contains a comma (multiple
comma-separated kernel candidates), the isdigit check fails and the word is
routed to the neural fallback; no candidate is selected and no error is
raised (the branch simply evaluates to the fallback side). -/
theorem comma_acc_routes_to_fallback (s : String) (rest : List Morpheme)
    (h : ',' ∈ s.data) :
    usesKernelPath (⟨some s⟩ :: rest) = false := by
  show (pyTruthyStr s && pyIsdigit s) = false
  have hall : s.data.all Char.isDigit = false := by
    cases hh : s.data.all Char.isDigit
    · rfl
    · have := List.all_eq_true.mp hh ',' h
      exact absurd this (by decide)
  simp [pyIsdigit, hall]

/-- C5 witness: the amended statement evaluated at the accent field 0,4 in
front of one further morpheme. -/
theorem comma_acc_fallback_instance :
    usesKernelPath [(⟨some ("0,4")⟩ : Morpheme), ⟨none⟩] = false :=
  comma_acc_routes_to_fallback ("0,4") [⟨none⟩] (by decide)

/-! ## Claims about the notation renderer -/

/-- C6: the renderer never attaches an opening bracket at position 0, and it
attaches the closing bracket at position i only when the label there is
HIGH (2) and an immediately following label exists and is LOW (1) — so a
HIGH run touching the end of the pattern is never closed. -/
theorem renderer_bracket_sound (preds : List ℕ) (i : ℕ) :
    vizPre preds 0 = "" ∧
    (vizSuf preds i = "]" →
      preds.getD i 0 = 2 ∧ i + 1 < preds.length ∧ preds.getD (i + 1) 0 = 1) := by
  constructor
  · unfold vizPre
    split
    · simp
    · rfl
  · intro h
    by_cases h2 : preds.getD i 0 = 2
    · by_cases h3 : i + 1 < preds.length
      · by_cases h4 : preds.getD (i + 1) 0 = 1
        · exact ⟨h2, h3, h4⟩
        · unfold vizSuf at h
          rw [if_pos h2, if_pos h3, if_neg h4] at h
          exact absurd h (by decide)
      · unfold vizSuf at h
        rw [if_pos h2, if_neg h3] at h
        exact absurd h (by decide)
    · unfold vizSuf at h
      rw [if_neg h2] at h
      exact absurd h (by decide)

/-- C6 witness: the statement evaluated at the pattern [2, 1] and position 0,
where the closing bracket is attached. -/
theorem renderer_bracket_instance :
    vizPre [2, 1] 0 = "" ∧
    (([2, 1] : List ℕ).getD 0 0 = 2 ∧ 0 + 1 < ([2, 1] : List ℕ).length ∧
      ([2, 1] : List ℕ).getD (0 + 1) 0 = 1) :=
  ⟨(renderer_bracket_sound [2, 1] 0).1, (renderer_bracket_sound [2, 1] 0).2 (by decide)⟩

/-- C9: when the pattern is shorter than the mora sequence, the rendered
string is exactly the one rendered from the first len(pattern) morae — the
trailing morae are silently dropped from the display. -/
theorem displayStr_truncates_to_pattern (morae : List String) (preds : List ℕ)
    (h : preds.length < morae.length) :
    displayStr morae preds = displayStr (morae.take preds.length) preds := by
  unfold displayStr
  have h1 : min morae.length preds.length = preds.length := by omega
  have h2 : min (morae.take preds.length).length preds.length = preds.length := by
    rw [List.length_take]
    omega
  rw [h1, h2]
  congr 1
  apply List.map_congr_left
  intro i hi
  rw [List.mem_range] at hi
  rw [getD_take_of_lt morae ("") preds.length i hi]

/-- C9 witness: with two morae and a one-label pattern the rendered string
equals the rendering of the first mora alone, and it does not reproduce the
full reading. -/
theorem displayStr_truncate_instance :
    displayStr ["ア", "ア"] [1] = displayStr ["ア"] [1] ∧
    displayStr ["ア", "ア"] [1] = "ア" ∧
    displayStr ["ア", "ア"] [1] ≠ "アア" := by
  refine ⟨?_, by rfl, by decide⟩
  exact displayStr_truncates_to_pattern ["ア", "ア"] [1] (by decide)

/-! ## Claims about the candidate store and the build pipeline -/

theorem putCandidate_stable (r : CandidateRecord) (A : List CandidateRecord)
    (hA : A.any (fun x => x.text == r.text) = true) : putCandidate A r = A := by
  unfold putCandidate
  rw [if_pos hA]

/-- C7: store insertion is idempotent on the surface text — re-inserting a
record is a no-op, and starting from a store with no record of that surface,
inserting the same surface twice leaves exactly one matching record. -/
theorem putCandidate_idempotent (db : List CandidateRecord) (r : CandidateRecord) :
    putCandidate (putCandidate db r) r = putCandidate db r ∧
    (db.countP (fun x => x.text == r.text) = 0 →
      (putCandidate (putCandidate db r) r).countP (fun x => x.text == r.text) = 1) := by
  have hmem : (putCandidate db r).any (fun x => x.text == r.text) = true := by
    unfold putCandidate
    split
    · assumption
    · simp
  refine ⟨putCandidate_stable r (putCandidate db r) hmem, ?_⟩
  intro h0
  rw [putCandidate_stable r (putCandidate db r) hmem]
  have hany : db.any (fun x => x.text == r.text) = false := by
    cases hh : db.any (fun x => x.text == r.text)
    · rfl
    · obtain ⟨x, hx, hpx⟩ := List.any_eq_true.mp hh
      have := List.countP_eq_zero.mp h0 x hx
      exact absurd hpx this
  have hput : putCandidate db r = db ++ [r] := by
    unfold putCandidate
    rw [if_neg (by simp [hany])]
  rw [hput, List.countP_append, h0]
  simp

/-- C7 witness: inserting the record for the surface 水 twice into the empty
store leaves exactly one matching record. -/
theorem putCandidate_idempotent_instance :
    (putCandidate (putCandidate [] ⟨"水", "ミズ", [1, 2], 2⟩) ⟨"水", "ミズ", [1, 2], 2⟩).countP
      (fun x => x.text == "水") = 1 :=
  (putCandidate_idempotent [] ⟨"水", "ミズ", [1, 2], 2⟩).2 (by decide)

theorem align_and_validate_some (res : Option (String × List ℕ)) (text : String)
    (r : CandidateRecord) (h : align_and_validate res text = some r) :
    ∃ reading pat, res = some (reading, pat) ∧ reading ≠ "" ∧
      2 ≤ pat.length ∧ pat.length ≤ 10 ∧ r = ⟨text, reading, pat, pat.length⟩ := by
  cases res with
  | none => simp [align_and_validate] at h
  | some p =>
    obtain ⟨reading, pat⟩ := p
    refine ⟨reading, pat, rfl, ?_⟩
    have h' : (if reading = "" then (none : Option CandidateRecord)
        else if pat.length < 2 ∨ 10 < pat.length then none
        else some ⟨text, reading, pat, pat.length⟩) = some r := h
    by_cases h1 : reading = ""
    · rw [if_pos h1] at h'
      exact absurd h' (by simp)
    · rw [if_neg h1] at h'
      by_cases h2 : pat.length < 2 ∨ 10 < pat.length
      · rw [if_pos h2] at h'
        exact absurd h' (by simp)
      · rw [if_neg h2] at h'
        push_neg at h2
        exact ⟨h1, by omega, by omega, (Option.some.inj h').symm⟩

theorem is_noun_iff (tokens : Option (List SudachiToken)) :
    is_noun_via_sudachi tokens = true ↔
      ∃ t, tokens = some [t] ∧ t.pos.head? = some ("名詞") := by
  cases tokens with
  | none => simp [is_noun_via_sudachi]
  | some ts =>
    cases ts with
    | nil => simp [is_noun_via_sudachi]
    | cons t rest =>
      cases rest with
      | nil =>
        cases hp : t.pos with
        | nil => simp [is_noun_via_sudachi, hp]
        | cons p0 tl => simp [is_noun_via_sudachi, hp]
      | cons t2 r2 => simp [is_noun_via_sudachi]

/-- C8: a word can change the store only when the Sudachi tokenization gives
exactly one token whose top part-of-speech category is the noun category and
the converted pattern's length lies in [2, 10]; a word failing the noun
check, failing the bound check, or whose conversion throws, leaves the store
exactly as it was (skipped in place, no error, the batch loop goes on). -/
theorem processWord_filter_sound (tokens : Option (List SudachiToken))
    (conv : Option (String × List ℕ)) (db : List CandidateRecord) (text : String) :
    (processWord tokens conv db text ≠ db →
      (∃ t, tokens = some [t] ∧ t.pos.head? = some ("名詞")) ∧
      (∃ reading pat, conv = some (reading, pat) ∧ reading ≠ "" ∧
        2 ≤ pat.length ∧ pat.length ≤ 10)) ∧
    (is_noun_via_sudachi tokens = false → processWord tokens conv db text = db) ∧
    (conv = none → processWord tokens conv db text = db) ∧
    (∀ reading pat, conv = some (reading, pat) →
      pat.length < 2 ∨ 10 < pat.length → processWord tokens conv db text = db) := by
  refine ⟨?_, ?_, ?_, ?_⟩
  · intro hne
    by_cases hn : is_noun_via_sudachi tokens = false
    · exfalso
      apply hne
      unfold processWord
      rw [if_pos hn]
    · have hn' : is_noun_via_sudachi tokens = true := by
        cases hh : is_noun_via_sudachi tokens
        · exact absurd hh hn
        · rfl
      refine ⟨(is_noun_iff tokens).mp hn', ?_⟩
      cases ha : align_and_validate conv text with
      | none =>
        exfalso
        apply hne
        unfold processWord
        rw [if_neg hn, ha]
      | some data =>
        obtain ⟨reading, pat, hres, hrd, h2, h10, _⟩ :=
          align_and_validate_some conv text data ha
        exact ⟨reading, pat, hres, hrd, h2, h10⟩
  · intro hf
    unfold processWord
    rw [if_pos hf]
  · intro hc
    subst hc
    by_cases hn : is_noun_via_sudachi tokens = false
    · unfold processWord
      rw [if_pos hn]
    · unfold processWord
      rw [if_neg hn]
      rfl
  · intro reading pat hc hb
    subst hc
    by_cases hn : is_noun_via_sudachi tokens = false
    · unfold processWord
      rw [if_pos hn]
    · unfold processWord
      rw [if_neg hn]
      have ha : align_and_validate (some (reading, pat)) text = none := by
        show (if reading = "" then (none : Option CandidateRecord)
          else if pat.length < 2 ∨ 10 < pat.length then none
          else some ⟨text, reading, pat, pat.length⟩) = none
        by_cases h1 : reading = ""
        · rw [if_pos h1]
        · rw [if_neg h1, if_pos hb]
      rw [ha]

/-- C8 witness: a verb token is skipped — processing it against the empty
store leaves the store empty. -/
theorem processWord_filter_instance :
    processWord (some [⟨["動詞"]⟩]) (some ("ミズ", [1, 2])) [] ("水") = [] :=
  (processWord_filter_sound (some [⟨["動詞"]⟩]) (some ("ミズ", [1, 2])) [] ("水")).2.1
    (by decide)

/-- C10: every record produced by align_and_validate carries
mora_count = len(pattern) — the length of the converted accent pattern, not
a re-segmentation of the reading — and the [2, 10] filter is applied to
exactly this length. -/
theorem align_and_validate_mora_count (res : Option (String × List ℕ)) (text : String)
    (r : CandidateRecord) (h : align_and_validate res text = some r) :
    ∃ reading pat, res = some (reading, pat) ∧ r.accent_pattern = pat ∧
      r.mora_count = pat.length ∧ 2 ≤ r.mora_count ∧ r.mora_count ≤ 10 := by
  obtain ⟨reading, pat, hres, hrd, h2, h10, hr⟩ := align_and_validate_some res text r h
  subst hr
  exact ⟨reading, pat, hres, rfl, rfl, h2, h10⟩

/-- C10 witness: a conversion whose reading has three morae but whose
pattern has two labels is stored with mora_count 2, the pattern length — not
the 3 morae of the reading. -/
theorem align_and_validate_mora_instance :
    (∃ reading pat, (some ("アアア", [1, 2]) : Option (String × List ℕ)) = some (reading, pat) ∧
      (CandidateRecord.mk ("水") ("アアア") [1, 2] 2).accent_pattern = pat ∧
      (CandidateRecord.mk ("水") ("アアア") [1, 2] 2).mora_count = pat.length ∧
      2 ≤ (CandidateRecord.mk ("水") ("アアア") [1, 2] 2).mora_count ∧
      (CandidateRecord.mk ("水") ("アアア") [1, 2] 2).mora_count ≤ 10) ∧
    (sep_katakana2mora ("アアア")).length = 3 :=
  ⟨align_and_validate_mora_count (some ("アアア", [1, 2])) ("水")
    (CandidateRecord.mk ("水") ("アアア") [1, 2] 2) (by decide), by decide⟩
